import Mathlib

/-!
Verification development for the chip8 front end (src/main.js and its
earlier rewrites under src/unnamed/).

The display is a fixed 64×32 logical grid of boolean pixels.  The
off-screen canvas buffer is tiled by pixel blocks of size
`pixel_size × pixel_size` (one block per grid cell, see `resizeDisplay`:
the canvas dimensions are exact multiples of 64 and 32), so each
`fillRect(x * pixel_size, y * pixel_size, pixel_size, pixel_size)` of the
draw-sprite listener paints exactly the block of cell `(x, y)`.  We model
the buffer at cell granularity as a function `Nat → Nat → Bool` (cells
outside `[0,64) × [0,32)` are never painted: every painted coordinate is
reduced mod 64 / mod 32 first).
-/

/-- The logical pixel grid, addressed by (column, row). -/
abbrev Grid := Nat → Nat → Bool

/-- Painting one cell's pixel block: the cell takes the literal bit value
(overwrite, not XOR), all other cells keep their state. -/
def setCell (g : Grid) (x y : Nat) (b : Bool) : Grid :=
  fun cx cy => if cx = x ∧ cy = y then b else g cx cy

/-- Inner `byte.forEach((bit, x_offset) => ...)` loop of the draw-sprite
listener (src/main.js lines 67–76): the bit at offset `xoff` is painted at
column `(update_x + xoff) % 64` of row `y`, sequentially left to right. -/
def blitRowAux (g : Grid) (ux y xoff : Nat) : List Bool → Grid
  | [] => g
  | bit :: rest => blitRowAux (setCell g ((ux + xoff) % 64) y bit) ux y (xoff + 1) rest

/-- One sprite row, starting at bit offset 0. -/
def blitRow (g : Grid) (ux y : Nat) (bits : List Bool) : Grid :=
  blitRowAux g ux y 0 bits

/-- Outer `update.forEach((byte, y_offset) => ...)` loop of the draw-sprite
listener (src/main.js lines 66–77): row `yoff` is painted at grid row
`(update_y + yoff) % 32`, rows processed top to bottom. -/
def drawSpriteAux (g : Grid) (ux uy yoff : Nat) : List (List Bool) → Grid
  | [] => g
  | row :: rest => drawSpriteAux (blitRow g ux ((uy + yoff) % 32) row) ux uy (yoff + 1) rest

/-- The draw-sprite listener's effect on the logical grid
(src/main.js lines 62–77). -/
def drawSprite (g : Grid) (ux uy : Nat) (update : List (List Bool)) : Grid :=
  drawSpriteAux g ux uy 0 update

/-- Cell `(cx, cy)` is addressed by some (row index `j`, bit index `i`) of
the sprite update. -/
def addressedBy (ux uy : Nat) (update : List (List Bool)) (cx cy : Nat) : Prop :=
  ∃ j i, j < update.length ∧ i < (update.getD j []).length ∧
    cx = (ux + i) % 64 ∧ cy = (uy + j) % 32

/-- Resolved geometry: canvas dimensions in device pixels and the side of
one cell's pixel block. -/
structure GeometryState where
  canvas_width : Nat
  canvas_height : Nat
  pixel_size : Nat
  deriving DecidableEq, Repr

/-- `resizeDisplay` (src/main.js lines 87–109).  Container offset sizes are
integers; `Math.floor` on them is the identity.  The JS guard
`width / height > 2.0` is rendered as `2 * height < width`: for
`height > 0` this is the exact rational comparison (exact for all
realistic container sizes, where the double division cannot round across
2.0), and for `height = 0` it reproduces the JS edge cases
(`w/0 = Infinity > 2` iff `w > 0`; `0/0 = NaN`, comparison false).
`pixel_size = Math.floor(canvas.height / 32)` is computed from the final
canvas height. -/
def resizeDisplay (container_width container_height : Nat) : GeometryState :=
  if 2 * container_height < container_width then
    let height := container_height / 32 * 32
    let width := height * 2
    { canvas_width := width, canvas_height := height, pixel_size := height / 32 }
  else
    let width := container_width / 64 * 64
    let height := width / 2
    { canvas_width := width, canvas_height := height, pixel_size := height / 32 }

/-- Inbound engine commands dispatched by the event bridge
(the `listen(...)` registrations of src/main.js). -/
inductive Command where
  | romLoaded (rom : List Nat)
  | stop
  | playBuzzer
  | pauseBuzzer
  | clear
  | drawSpriteCmd (x y : Nat) (update : List (List Bool))
  deriving DecidableEq, Repr

/-- Observable side effects of the listeners, in the order they are
performed: `oscStart` is `oscillator.start()`, `fillAll` the full-buffer
`fillRect` of `clearDisplay`, `requestFrame` a
`window.requestAnimationFrame` registration of the present callback,
`invokeEngine rom` the `invoke(..., \x7b rom \x7d)` call that forwards the
ROM bytes, `setGain g` a write to `gain_node.gain.value`, and
`spriteFill x y u` the per-bit `fillRect` sequence of the draw-sprite
listener. -/
inductive Effect where
  | oscStart
  | fillAll
  | requestFrame
  | invokeEngine (rom : List Nat)
  | setGain (g : ℚ)
  | spriteFill (x y : Nat) (update : List (List Bool))
  deriving DecidableEq, Repr

/-- The front end's module state after `window.onload` has run: the
off-screen buffer and the visible canvas at cell granularity, the number of
pending `requestAnimationFrame` present callbacks (each one performs
`display.drawImage(canvas_buffer, 0, 0)` at the next rendering tick), the
audio-gate flag and gain, and the trace of effects performed so far. -/
structure FrontendState where
  buffer : Grid
  visible : Grid
  pending : Nat
  is_audio_started : Bool
  gain : ℚ
  trace : List Effect

/-- `clearDisplay` (src/main.js lines 111–117): paint the whole off-screen
buffer background and register one more present callback. -/
def clearDisplay (s : FrontendState) : FrontendState :=
  { s with buffer := fun _ _ => false,
           pending := s.pending + 1,
           trace := s.trace ++ [Effect.fillAll, Effect.requestFrame] }

/-- Dispatch of one inbound command to its listener (src/main.js lines
42–85).  `romLoaded`: start the oscillator once (guarded by
`is_audio_started`), then `clearDisplay()`, then forward the ROM payload
unmodified to the engine.  `stop` and `clear`: `clearDisplay()`.
`playBuzzer` / `pauseBuzzer`: set the gain only.  `drawSpriteCmd`: blit
into the off-screen buffer and register one more present callback. -/
def dispatch (s : FrontendState) : Command → FrontendState
  | Command.romLoaded rom =>
      let s1 := if s.is_audio_started then s else
        { s with is_audio_started := true, trace := s.trace ++ [Effect.oscStart] }
      let s2 := clearDisplay s1
      { s2 with trace := s2.trace ++ [Effect.invokeEngine rom] }
  | Command.stop => clearDisplay s
  | Command.playBuzzer =>
      { s with gain := mkRat 5 1000, trace := s.trace ++ [Effect.setGain (mkRat 5 1000)] }
  | Command.pauseBuzzer =>
      { s with gain := 0, trace := s.trace ++ [Effect.setGain 0] }
  | Command.clear => clearDisplay s
  | Command.drawSpriteCmd x y update =>
      { s with buffer := drawSprite s.buffer x y update,
               pending := s.pending + 1,
               trace := s.trace ++ [Effect.spriteFill x y update, Effect.requestFrame] }

/-- Process a sequence of inbound commands in arrival order. -/
def run (s : FrontendState) (cs : List Command) : FrontendState :=
  cs.foldl dispatch s

/-- State at the start of a rendering tick in a fresh session: what
`window.onload` (src/main.js lines 120–131) leaves behind once its own
scheduled present has been drained — cleared buffer and canvas, oscillator
created but not started, gain 0. -/
def initState : FrontendState :=
  { buffer := fun _ _ => false, visible := fun _ _ => false, pending := 0,
    is_audio_started := false, gain := 0, trace := [] }

/-- One pending present callback: `display.drawImage(canvas_buffer, 0, 0)`
copies the whole off-screen buffer to the visible canvas. -/
def presentOnce (s : FrontendState) : FrontendState :=
  { s with visible := s.buffer }

/-- Run `n` of the pending present callbacks back to back (the browser runs
every callback registered during the tick, in registration order, at the
next rendering tick). -/
def runPresents : Nat → FrontendState → FrontendState
  | 0, s => s
  | n + 1, s => runPresents n (presentOnce s)

/-- The rendering-tick boundary: every pending present callback runs, then
none are left pending. -/
def runTick (s : FrontendState) : FrontendState :=
  { runPresents s.pending s with pending := 0 }

/-- Number of present (`drawImage`) calls the next rendering tick will
perform: one per registered callback. -/
def presentsInTick (s : FrontendState) : Nat :=
  s.pending

/-- A buffer-mutating command (a clear — also performed by `stop` and
`romLoaded` — or a sprite blit); each schedules a present callback. -/
def isMutationB : Command → Bool
  | Command.romLoaded _ => true
  | Command.stop => true
  | Command.clear => true
  | Command.drawSpriteCmd _ _ _ => true
  | _ => false

/-- Recognizer for the `rom-loaded` command. -/
def isRomLoadedB : Command → Bool
  | Command.romLoaded _ => true
  | _ => false

/-- Number of `oscillator.start()` invocations performed so far. -/
def oscStarts (s : FrontendState) : Nat :=
  s.trace.count Effect.oscStart

/-- The buzzer is audible exactly when the oscillator is running and the
gain is positive (a square-wave source connected through the gain node to
the destination). -/
def isAudible (s : FrontendState) : Bool :=
  s.is_audio_started && decide (0 < s.gain)

/-- One `fillRect(x, y, w, h)` call on the off-screen context, together
with the `fillStyle` in force (`white = true` for `"#FFFFFF"`, `false` for
`"#000000"`). -/
structure FillOp where
  x : Nat
  y : Nat
  w : Nat
  h : Nat
  white : Bool
  deriving DecidableEq, Repr

/-- Rectangles filled by the inner bit loop of the current draw-sprite
listener (src/main.js lines 67–76), in execution order; `pixel_size` is the
module-global variable. -/
def spriteFillsRow (pixel_size ux y xoff : Nat) : List Bool → List FillOp
  | [] => []
  | bit :: rest =>
      { x := (ux + xoff) % 64 * pixel_size, y := y * pixel_size,
        w := pixel_size, h := pixel_size, white := bit }
        :: spriteFillsRow pixel_size ux y (xoff + 1) rest

/-- Rectangles filled by the row loop of the current draw-sprite listener
(src/main.js lines 66–77), in execution order. -/
def spriteFillsAux (pixel_size ux uy yoff : Nat) : List (List Bool) → List FillOp
  | [] => []
  | row :: rest =>
      spriteFillsRow pixel_size ux ((uy + yoff) % 32) 0 row
        ++ spriteFillsAux pixel_size ux uy (yoff + 1) rest

/-- Rectangle sequence of the current draw-sprite listener
(src/main.js lines 62–77). -/
def drawSpriteFills (pixel_size ux uy : Nat) (update : List (List Bool)) : List FillOp :=
  spriteFillsAux pixel_size ux uy 0 update

/-- Rectangles filled by the inner bit loop of the preceding rewrite's
draw-sprite listener (src/unnamed/part_001 lines 31–47 of that file), in
execution order. -/
def spriteFillsRowPrev (pixel_size ux y xoff : Nat) : List Bool → List FillOp
  | [] => []
  | bit :: rest =>
      { x := (ux + xoff) % 64 * pixel_size, y := y * pixel_size,
        w := pixel_size, h := pixel_size, white := bit }
        :: spriteFillsRowPrev pixel_size ux y (xoff + 1) rest

/-- Row loop of the preceding rewrite's draw-sprite listener. -/
def spriteFillsAuxPrev (pixel_size ux uy yoff : Nat) : List (List Bool) → List FillOp
  | [] => []
  | row :: rest =>
      spriteFillsRowPrev pixel_size ux ((uy + yoff) % 32) 0 row
        ++ spriteFillsAuxPrev pixel_size ux uy (yoff + 1) rest

/-- Rectangle sequence of the preceding rewrite's draw-sprite listener
(src/unnamed/part_001): there `pixel_size` is recomputed locally as
`Math.floor(canvas.height / 32)` instead of read from the module-global
variable. -/
def drawSpriteFillsPrev (canvas_height ux uy : Nat) (update : List (List Bool)) : List FillOp :=
  let pixel_size := canvas_height / 32
  spriteFillsAuxPrev pixel_size ux uy 0 update

/-- Adding a common shift before reducing by a fixed modulus is injective
on residues below the modulus. -/
theorem add_mod_inj (n c a b : Nat) (ha : a < n) (hb : b < n)
    (h : (c + a) % n = (c + b) % n) : a = b := by
  have h2 : a % n = b % n := Nat.ModEq.add_left_cancel' c h
  rwa [Nat.mod_eq_of_lt ha, Nat.mod_eq_of_lt hb] at h2

/-- A cell hit by no bit of the row is left unchanged by the inner blit
loop. -/
theorem blitRowAux_ne (ux y : Nat) (bits : List Bool) :
    ∀ (g : Grid) (xoff cx cy : Nat),
      (∀ i, i < bits.length → ¬(cx = (ux + xoff + i) % 64 ∧ cy = y)) →
      blitRowAux g ux y xoff bits cx cy = g cx cy := by
  induction bits with
  | nil => intro g xoff cx cy _; rfl
  | cons bit rest ih =>
      intro g xoff cx cy h
      have hrest : ∀ i, i < rest.length → ¬(cx = (ux + (xoff + 1) + i) % 64 ∧ cy = y) := by
        intro i hi
        have h2 := h (i + 1) (by simpa using Nat.succ_lt_succ hi)
        have harith : ux + (xoff + 1) + i = ux + xoff + (i + 1) := by omega
        rwa [harith]
      rw [blitRowAux, ih _ _ _ _ hrest]
      have h0 := h 0 (by simp)
      simp only [Nat.add_zero] at h0
      simp only [setCell]
      rw [if_neg h0]

/-- When no later bit of the row lands on the same column, the inner blit
loop leaves the bit's literal value at its destination cell. -/
theorem blitRowAux_get (ux y : Nat) (bits : List Bool) :
    ∀ (g : Grid) (xoff i : Nat), i < bits.length →
      (∀ i2, i < i2 → i2 < bits.length → (ux + xoff + i2) % 64 ≠ (ux + xoff + i) % 64) →
      blitRowAux g ux y xoff bits ((ux + xoff + i) % 64) y = bits.getD i false := by
  induction bits with
  | nil => intro g xoff i hi; exact absurd hi (Nat.not_lt_zero i)
  | cons bit rest ih =>
      intro g xoff i hi hdist
      match i with
      | 0 =>
          rw [blitRowAux]
          have hrest : ∀ k, k < rest.length →
              ¬((ux + xoff + 0) % 64 = (ux + (xoff + 1) + k) % 64 ∧ y = y) := by
            intro k hk hcontra
            apply hdist (k + 1) (Nat.succ_pos k) (by simpa using Nat.succ_lt_succ hk)
            have harith : ux + (xoff + 1) + k = ux + xoff + (k + 1) := by omega
            rw [harith] at hcontra
            exact hcontra.1.symm
          rw [blitRowAux_ne ux y rest _ _ _ _ hrest]
          simp [setCell]
      | k + 1 =>
          rw [blitRowAux]
          simp only [List.getD_cons_succ]
          have harith : ux + xoff + (k + 1) = ux + (xoff + 1) + k := by omega
          rw [harith]
          apply ih _ (xoff + 1) k (by simpa using Nat.lt_of_succ_lt_succ hi)
          intro k2 hk2 hk2len
          have harith2 : ux + (xoff + 1) + k2 = ux + xoff + (k2 + 1) := by omega
          rw [harith2, ← harith]
          exact hdist (k2 + 1) (by omega) (by simpa using Nat.succ_lt_succ hk2len)

/-- A cell hit by no bit of the update is left unchanged by the row loop. -/
theorem drawSpriteAux_ne (ux uy : Nat) (update : List (List Bool)) :
    ∀ (g : Grid) (yoff cx cy : Nat),
      (∀ j i, j < update.length → i < (update.getD j []).length →
        ¬(cx = (ux + i) % 64 ∧ cy = (uy + yoff + j) % 32)) →
      drawSpriteAux g ux uy yoff update cx cy = g cx cy := by
  induction update with
  | nil => intro g yoff cx cy _; rfl
  | cons row rest ih =>
      intro g yoff cx cy h
      rw [drawSpriteAux]
      have hrest : ∀ j i, j < rest.length → i < (rest.getD j []).length →
          ¬(cx = (ux + i) % 64 ∧ cy = (uy + (yoff + 1) + j) % 32) := by
        intro j i hj hi
        have h2 := h (j + 1) i (by simpa using Nat.succ_lt_succ hj) (by simpa using hi)
        have harith : uy + (yoff + 1) + j = uy + yoff + (j + 1) := by omega
        rwa [harith]
      rw [ih _ _ _ _ hrest, blitRow]
      apply blitRowAux_ne
      intro i hi
      have h2 := h 0 i (by simp) (by simpa using hi)
      simpa using h2

/-- When no later bit of the update lands on the same cell, the row loop
leaves the bit's literal value at its destination cell. -/
theorem drawSpriteAux_get (ux uy : Nat) (update : List (List Bool)) :
    ∀ (g : Grid) (yoff j i : Nat), j < update.length → i < (update.getD j []).length →
      (∀ i2, i < i2 → i2 < (update.getD j []).length → (ux + i2) % 64 ≠ (ux + i) % 64) →
      (∀ j2, j < j2 → j2 < update.length → (uy + yoff + j2) % 32 ≠ (uy + yoff + j) % 32) →
      drawSpriteAux g ux uy yoff update ((ux + i) % 64) ((uy + yoff + j) % 32)
        = (update.getD j []).getD i false := by
  induction update with
  | nil => intro g yoff j i hj; exact absurd hj (Nat.not_lt_zero j)
  | cons row rest ih =>
      intro g yoff j i hj hi hrow hcols
      match j with
      | 0 =>
          rw [drawSpriteAux]
          simp only [List.getD_cons_zero] at hi hrow ⊢
          have hrest : ∀ j2 i2, j2 < rest.length → i2 < (rest.getD j2 []).length →
              ¬((ux + i) % 64 = (ux + i2) % 64 ∧
                (uy + yoff + 0) % 32 = (uy + (yoff + 1) + j2) % 32) := by
            intro j2 i2 hj2 hi2 hcontra
            apply hcols (j2 + 1) (Nat.succ_pos j2) (by simpa using Nat.succ_lt_succ hj2)
            have harith : uy + (yoff + 1) + j2 = uy + yoff + (j2 + 1) := by omega
            rw [harith] at hcontra
            exact hcontra.2.symm
          rw [drawSpriteAux_ne ux uy rest _ _ _ _ hrest, blitRow]
          simp only [Nat.add_zero]
          have h2 := blitRowAux_get ux ((uy + yoff) % 32) row g 0 i hi ?_
          · simpa using h2
          · intro i2 h1 h2
            have harith : ux + 0 + i2 = ux + i2 := by omega
            have harith2 : ux + 0 + i = ux + i := by omega
            rw [harith, harith2]
            exact hrow i2 h1 h2
      | k + 1 =>
          rw [drawSpriteAux]
          simp only [List.getD_cons_succ] at hi hrow ⊢
          have harith : uy + yoff + (k + 1) = uy + (yoff + 1) + k := by omega
          rw [harith]
          apply ih _ (yoff + 1) k i (by simpa using Nat.lt_of_succ_lt_succ hj) hi hrow
          intro j2 h1 h2
          have harith2 : uy + (yoff + 1) + j2 = uy + yoff + (j2 + 1) := by omega
          rw [harith2, ← harith]
          exact hcols (j2 + 1) (by omega) (by simpa using Nat.succ_lt_succ h2)

/-- C1, counterexample.  The claim reads the blit as a post-state
assertion: every (row index j, bit index i) leaves the bit's literal value
at cell ((origin_x + i) mod 64, (origin_y + j) mod 32).  A row of 65 bits
addresses the column (origin_x + 0) mod 64 twice (at i = 0 and i = 64);
the draw-sprite loop overwrites sequentially, so the later bit wins.  Here
bit (j = 0, i = 0) is `true`, yet after the blit the cell
((0 + 0) mod 64, (0 + 0) mod 32) holds `false`. -/
theorem C1_counterexample :
    (0 : Nat) < ([true :: List.replicate 64 false] : List (List Bool)).length ∧
    (0 : Nat) < (([true :: List.replicate 64 false] : List (List Bool)).getD 0 []).length ∧
    (([true :: List.replicate 64 false] : List (List Bool)).getD 0 []).getD 0 false = true ∧
    drawSprite (fun _ _ => false) 0 0 [true :: List.replicate 64 false]
      ((0 + 0) % 64) ((0 + 0) % 32) = false := by
  refine ⟨by decide, by decide, by decide, by decide⟩

/-- C1 (amended): for every sprite update with at most 32 rows, each row of
at most 64 bits (so that no two (row index, bit index) pairs address the
same cell — the CHIP-8 regime, sprites being 8 bits wide and at most 15
rows tall), the blit sets, for each row index j and bit index i, exactly
the grid cell ((origin_x + i) mod 64, (origin_y + j) mod 32) to the bit's
literal value (overwrite, not XOR), and leaves every cell not addressed by
some (i, j) of the update unchanged; in particular origin (62, 0) with
rows [[1,1,1,1]] sets cells (62,0), (63,0), (0,0), (1,0) to on and no
others (see the witness). -/
theorem C1_sprite_blit (g : Grid) (ux uy : Nat) (update : List (List Bool))
    (hrows : update.length ≤ 32) (hbits : ∀ row ∈ update, row.length ≤ 64) :
    (∀ j i, j < update.length → i < (update.getD j []).length →
      drawSprite g ux uy update ((ux + i) % 64) ((uy + j) % 32)
        = (update.getD j []).getD i false) ∧
    (∀ cx cy, ¬ addressedBy ux uy update cx cy →
      drawSprite g ux uy update cx cy = g cx cy) := by
  constructor
  · intro j i hj hi
    have hrowmem : update.getD j [] ∈ update := by
      rw [List.getD_eq_getElem?_getD, List.getElem?_eq_getElem hj]
      exact List.getElem_mem hj
    have hlen : (update.getD j []).length ≤ 64 := hbits _ hrowmem
    unfold drawSprite
    have h2 := drawSpriteAux_get ux uy update g 0 j i hj hi ?_ ?_
    · simpa using h2
    · intro i2 hlt hi2 heq
      have := add_mod_inj 64 ux i2 i (lt_of_lt_of_le hi2 hlen) (lt_of_lt_of_le hi hlen) heq
      omega
    · intro j2 hlt hj2 heq
      have h3 : uy + 0 + j2 = uy + j2 := by omega
      have h4 : uy + 0 + j = uy + j := by omega
      rw [h3, h4] at heq
      have := add_mod_inj 32 uy j2 j (lt_of_lt_of_le hj2 hrows) (lt_of_lt_of_le hj hrows) heq
      omega
  · intro cx cy hna
    unfold drawSprite
    apply drawSpriteAux_ne
    intro j i hj hi hcontra
    exact hna ⟨j, i, hj, hi, hcontra.1, by simpa using hcontra.2⟩

/-- C1 witness: the claim's own scenario.  Origin (62, 0), rows
[[1,1,1,1]]: the four addressed cells wrap across the right edge and come
out on; a cell off the sprite (here (5, 7)) stays off; and the amended
theorem applies to this update, giving the value of every addressed cell
and the preservation of every non-addressed one. -/
theorem C1_sprite_blit_witness :
    (drawSprite (fun _ _ => false) 62 0 [[true, true, true, true]] 62 0 = true ∧
     drawSprite (fun _ _ => false) 62 0 [[true, true, true, true]] 63 0 = true ∧
     drawSprite (fun _ _ => false) 62 0 [[true, true, true, true]] 0 0 = true ∧
     drawSprite (fun _ _ => false) 62 0 [[true, true, true, true]] 1 0 = true ∧
     drawSprite (fun _ _ => false) 62 0 [[true, true, true, true]] 5 7 = false) ∧
    ((∀ j i, j < ([[true, true, true, true]] : List (List Bool)).length →
        i < (([[true, true, true, true]] : List (List Bool)).getD j []).length →
        drawSprite (fun _ _ => false) 62 0 [[true, true, true, true]]
          ((62 + i) % 64) ((0 + j) % 32)
          = (([[true, true, true, true]] : List (List Bool)).getD j []).getD i false) ∧
     (∀ cx cy, ¬ addressedBy 62 0 [[true, true, true, true]] cx cy →
        drawSprite (fun _ _ => false) 62 0 [[true, true, true, true]] cx cy = false)) :=
  ⟨by decide,
   C1_sprite_blit (fun _ _ => false) 62 0 [[true, true, true, true]] (by decide) (by decide)⟩

/-- Closed form of the geometry resolution, one structure literal per
branch. -/
theorem resizeDisplay_eq (w h : Nat) :
    resizeDisplay w h = if 2 * h < w
      then { canvas_width := h / 32 * 32 * 2, canvas_height := h / 32 * 32,
             pixel_size := h / 32 * 32 / 32 }
      else { canvas_width := w / 64 * 64, canvas_height := w / 64 * 64 / 2,
             pixel_size := w / 64 * 64 / 2 / 32 } := rfl

/-- C4: for every container size, geometry resolution floors the height to
a multiple of 32 and doubles it when the container is wider than 2:1,
otherwise floors the width to a multiple of 64 and halves it; the pixel
cell side is the canvas height divided by 32; and the 1000×400 container
yields canvas 768×384 with pixel size 12. -/
theorem C4_geometry (w h : Nat) :
    (2 * h < w →
      (resizeDisplay w h).canvas_height = h / 32 * 32 ∧
      (resizeDisplay w h).canvas_width = 2 * (resizeDisplay w h).canvas_height) ∧
    (¬ 2 * h < w →
      (resizeDisplay w h).canvas_width = w / 64 * 64 ∧
      (resizeDisplay w h).canvas_height = (resizeDisplay w h).canvas_width / 2) ∧
    (resizeDisplay w h).pixel_size = (resizeDisplay w h).canvas_height / 32 ∧
    resizeDisplay 1000 400
      = { canvas_width := 768, canvas_height := 384, pixel_size := 12 } := by
  refine ⟨fun hc => ?_, fun hc => ?_, ?_, by decide⟩
  · rw [resizeDisplay_eq, if_pos hc]
    exact ⟨rfl, by show h / 32 * 32 * 2 = 2 * (h / 32 * 32); omega⟩
  · rw [resizeDisplay_eq, if_neg hc]
    exact ⟨rfl, rfl⟩
  · rw [resizeDisplay_eq]
    split
    · rfl
    · rfl

/-- C4 witness: the wide branch at the claim's own 1000×400 container. -/
theorem C4_geometry_witness :
    (resizeDisplay 1000 400).canvas_height = 400 / 32 * 32 ∧
    (resizeDisplay 1000 400).canvas_width = 2 * (resizeDisplay 1000 400).canvas_height :=
  (C4_geometry 1000 400).1 (by decide)

/-- C5: after every geometry resolution (each resolution depends only on
the container size it is given, so this covers every resize sequence), the
state satisfies pixel_size = floor(canvas_height / 32) and
canvas_width = 2 * canvas_height. -/
theorem C5_aspect_invariant (w h : Nat) :
    (resizeDisplay w h).pixel_size = (resizeDisplay w h).canvas_height / 32 ∧
    (resizeDisplay w h).canvas_width = 2 * (resizeDisplay w h).canvas_height := by
  rw [resizeDisplay_eq]
  split
  · exact ⟨rfl, by show h / 32 * 32 * 2 = 2 * (h / 32 * 32); omega⟩
  · exact ⟨rfl, by show w / 64 * 64 = 2 * (w / 64 * 64 / 2); omega⟩

/-- C9: after every geometry resolution the canvas dimensions are exact
multiples of the 64×32 grid: canvas_width = 64 * pixel_size and
canvas_height = 32 * pixel_size, so the pixel blocks tile the off-screen
target with no partial cells or remainder margin. -/
theorem C9_exact_tiling (w h : Nat) :
    (resizeDisplay w h).canvas_width = 64 * (resizeDisplay w h).pixel_size ∧
    (resizeDisplay w h).canvas_height = 32 * (resizeDisplay w h).pixel_size := by
  rw [resizeDisplay_eq]
  split
  · constructor
    · show h / 32 * 32 * 2 = 64 * (h / 32 * 32 / 32); omega
    · show h / 32 * 32 = 32 * (h / 32 * 32 / 32); omega
  · constructor
    · show w / 64 * 64 = 64 * (w / 64 * 64 / 2 / 32); omega
    · show w / 64 * 64 / 2 = 32 * (w / 64 * 64 / 2 / 32); omega

/-- Processing a command sequence one step at a time. -/
theorem run_cons (s : FrontendState) (c : Command) (cs : List Command) :
    run s (c :: cs) = run (dispatch s c) cs := rfl

/-- Processing a concatenation of command sequences. -/
theorem run_append (s : FrontendState) (a b : List Command) :
    run s (a ++ b) = run (run s a) b := by
  simp [run, List.foldl_append]

/-- Effect of one dispatched command on the oscillator-start count and the
audio-gate flag: only the first `rom-loaded` adds a start. -/
theorem dispatch_oscStarts (s : FrontendState) (c : Command) :
    oscStarts (dispatch s c)
      = oscStarts s + (if isRomLoadedB c && !s.is_audio_started then 1 else 0) ∧
    (dispatch s c).is_audio_started = (s.is_audio_started || isRomLoadedB c) := by
  cases c <;> by_cases hc : s.is_audio_started <;>
    simp [dispatch, clearDisplay, oscStarts, isRomLoadedB, hc,
      List.count_append, List.count_cons, List.count_nil]

/-- Over a whole command sequence, the oscillator is started exactly once
if the gate was not yet armed and the sequence contains a `rom-loaded`,
never otherwise; and afterwards the gate is armed iff it was armed before
or a `rom-loaded` occurred. -/
theorem run_oscStarts (cs : List Command) :
    ∀ s : FrontendState,
      oscStarts (run s cs)
        = oscStarts s + (if cs.any isRomLoadedB && !s.is_audio_started then 1 else 0) ∧
      (run s cs).is_audio_started = (s.is_audio_started || cs.any isRomLoadedB) := by
  induction cs with
  | nil => intro s; simp [run]
  | cons c rest ih =>
      intro s
      rw [run_cons]
      obtain ⟨h1, h2⟩ := dispatch_oscStarts s c
      obtain ⟨h3, h4⟩ := ih (dispatch s c)
      rw [h3, h4, h1, h2]
      constructor
      · by_cases hc : isRomLoadedB c <;> by_cases hs : s.is_audio_started <;>
          by_cases hr : rest.any isRomLoadedB <;> simp [hc, hs, hr]
      · by_cases hc : isRomLoadedB c <;> simp [hc, Bool.or_assoc]

/-- C3: for every sequence of inbound commands in a session, the tone
source is started at most once — `oscillator.start()` runs exactly on the
first `rom-loaded` (count 1 whenever some `rom-loaded` occurs, 0
otherwise), even if `rom-loaded` is received multiple times.  No command
ever stops the oscillator: the source contains no `oscillator.stop()`
call, so the model has no stop effect at all. -/
theorem C3_single_audio_start (cs : List Command) :
    oscStarts (run initState cs) = (if cs.any isRomLoadedB then 1 else 0) := by
  have h := (run_oscStarts cs initState).1
  simpa [initState, oscStarts] using h

/-- C6: the `rom-loaded` listener performs, in this order: arm the audio
gate if not yet armed (`oscillator.start()`), clear the pixel surface
(full-buffer background fill plus one scheduled present), and forward the
ROM bytes unmodified to the engine's initialization entry point.  Stated
on the effect trace, which records the actions in execution order. -/
theorem C6_rom_loaded_order (s : FrontendState) (rom : List Nat) :
    (dispatch s (Command.romLoaded rom)).trace
      = s.trace ++ (if s.is_audio_started then [] else [Effect.oscStart])
          ++ [Effect.fillAll, Effect.requestFrame, Effect.invokeEngine rom] ∧
    (∀ x y, (dispatch s (Command.romLoaded rom)).buffer x y = false) ∧
    (dispatch s (Command.romLoaded rom)).is_audio_started = true := by
  refine ⟨?_, fun _ _ => ?_, ?_⟩ <;>
    by_cases hc : s.is_audio_started <;> simp [dispatch, clearDisplay, hc]

/-- C7: applying the clear operation twice in a row yields a logical grid
identical to applying it once — all cells background — for every starting
state. -/
theorem C7_clear_idempotent (s : FrontendState) :
    (clearDisplay (clearDisplay s)).buffer = (clearDisplay s).buffer ∧
    ∀ x y, (clearDisplay s).buffer x y = false :=
  ⟨rfl, fun _ _ => rfl⟩

/-- C8: issuing buzzer toggles before any `rom-loaded` is a safe no-op —
the dispatcher is a total function (no exception) and no audible output is
produced, because the oscillator has not been started; a subsequent
`rom-loaded` followed by `play-buzzer` produces audible output (running
oscillator, positive gain). -/
theorem C8_buzzer_before_arm (cs : List Command) (rom : List Nat)
    (h : cs.any isRomLoadedB = false) :
    isAudible (run initState cs) = false ∧
    isAudible (run initState (cs ++ [Command.romLoaded rom, Command.playBuzzer])) = true := by
  have h2 := (run_oscStarts cs initState).2
  rw [h] at h2
  have h3 : (run initState cs).is_audio_started = false := by rw [h2]; rfl
  constructor
  · simp [isAudible, h3]
  · have h4 : (dispatch (run initState cs) (Command.romLoaded rom)).is_audio_started = true := by
      have h5 := (dispatch_oscStarts (run initState cs) (Command.romLoaded rom)).2
      simpa [isRomLoadedB] using h5
    rw [run_append]
    show (dispatch (run initState cs) (Command.romLoaded rom)).is_audio_started
      && decide ((0 : ℚ) < mkRat 5 1000) = true
    rw [h4]
    decide

/-- C8 witness: toggling the buzzer both ways before any ROM is loaded
stays silent; loading a ROM and then playing the buzzer is audible. -/
theorem C8_buzzer_before_arm_witness :
    isAudible (run initState
      [Command.playBuzzer, Command.pauseBuzzer, Command.playBuzzer]) = false ∧
    isAudible (run initState
      ([Command.playBuzzer, Command.pauseBuzzer, Command.playBuzzer]
        ++ [Command.romLoaded [0, 1], Command.playBuzzer])) = true :=
  C8_buzzer_before_arm [Command.playBuzzer, Command.pauseBuzzer, Command.playBuzzer]
    [0, 1] (by decide)

/-- Each buffer-mutating command registers exactly one more present
callback. -/
theorem run_pending (cs : List Command) :
    ∀ s : FrontendState, (∀ c ∈ cs, isMutationB c = true) →
      (run s cs).pending = s.pending + cs.length := by
  induction cs with
  | nil => intro s _; simp [run]
  | cons c rest ih =>
      intro s h
      rw [run_cons, ih _ (fun c2 hc2 => h c2 (List.mem_cons_of_mem c hc2))]
      have hc := h c (List.mem_cons_self c rest)
      cases c with
      | playBuzzer => simp [isMutationB] at hc
      | pauseBuzzer => simp [isMutationB] at hc
      | romLoaded rom =>
          by_cases hs : s.is_audio_started <;> simp [dispatch, clearDisplay, hs] <;> omega
      | stop => simp [dispatch, clearDisplay]; omega
      | clear => simp [dispatch, clearDisplay]; omega
      | drawSpriteCmd x y u => simp [dispatch]; omega

/-- Present callbacks only copy the off-screen buffer; they never change
it. -/
theorem runPresents_buffer (n : Nat) :
    ∀ s : FrontendState, (runPresents n s).buffer = s.buffer := by
  induction n with
  | zero => intro s; rfl
  | succ k ih => intro s; rw [runPresents, ih]; rfl

/-- After at least one present callback, the visible canvas holds the
off-screen buffer's content — every callback copies the same final
buffer, so no intermediate content can become visible. -/
theorem runPresents_visible (n : Nat) :
    ∀ s : FrontendState, (runPresents (n + 1) s).visible = s.buffer := by
  induction n with
  | zero => intro s; rfl
  | succ k ih => intro s; rw [runPresents, ih]; rfl

/-- C2 counterexample: two clear mutations within one tick register two
`requestAnimationFrame` callbacks, so the next rendering tick performs two
`drawImage` presents — not exactly one.  Each mutation schedules its own
fresh callback; nothing in the code coalesces them. -/
theorem C2_counterexample :
    presentsInTick (run initState [Command.clear, Command.clear]) = 2 ∧
    presentsInTick (run initState [Command.clear, Command.clear]) ≠ 1 :=
  ⟨rfl, by decide⟩

/-- C2 (amended): N mutations (clears and sprite blits) issued within a
single rendering tick schedule one present callback each — N presents for
the tick, not exactly one; the visible surface after the tick matches the
off-screen buffer's final state after all N mutations; and every one of
the presents copies that same final state, so an intermediate state is
never made visible. -/
theorem C2_presents_per_tick (s : FrontendState) (cs : List Command)
    (h0 : s.pending = 0) (hne : cs ≠ [])
    (hmut : ∀ c ∈ cs, isMutationB c = true) :
    presentsInTick (run s cs) = cs.length ∧
    (runTick (run s cs)).visible = (run s cs).buffer ∧
    (∀ k, (runPresents (k + 1) (run s cs)).visible = (run s cs).buffer) := by
  have hp : (run s cs).pending = cs.length := by
    rw [run_pending cs s hmut, h0]
    omega
  refine ⟨hp, ?_, fun k => runPresents_visible k (run s cs)⟩
  show (runPresents (run s cs).pending (run s cs)).visible = (run s cs).buffer
  have hlen : cs.length ≠ 0 := fun hl => hne (List.length_eq_zero.mp hl)
  obtain ⟨m, hm⟩ := Nat.exists_eq_succ_of_ne_zero hlen
  rw [hp, hm]
  exact runPresents_visible m _

/-- C2 witness: a clear followed by a sprite blit in one tick gives two
presents, and the tick leaves the final buffer visible. -/
theorem C2_presents_per_tick_witness :
    presentsInTick (run initState
      [Command.clear, Command.drawSpriteCmd 0 0 [[true]]]) = 2 ∧
    (runTick (run initState [Command.clear, Command.drawSpriteCmd 0 0 [[true]]])).visible
      = (run initState [Command.clear, Command.drawSpriteCmd 0 0 [[true]]]).buffer ∧
    (∀ k, (runPresents (k + 1)
        (run initState [Command.clear, Command.drawSpriteCmd 0 0 [[true]]])).visible
      = (run initState [Command.clear, Command.drawSpriteCmd 0 0 [[true]]]).buffer) :=
  C2_presents_per_tick initState [Command.clear, Command.drawSpriteCmd 0 0 [[true]]]
    rfl (by decide) (by decide)

/-- The inner bit loops of the two handlers emit identical rectangle
sequences for equal pixel sizes. -/
theorem spriteFillsRow_eq (ps ux y : Nat) :
    ∀ (bits : List Bool) (xoff : Nat),
      spriteFillsRowPrev ps ux y xoff bits = spriteFillsRow ps ux y xoff bits := by
  intro bits
  induction bits with
  | nil => intro xoff; rfl
  | cons b rest ih => intro xoff; rw [spriteFillsRowPrev, spriteFillsRow, ih]

/-- The row loops of the two handlers emit identical rectangle sequences
for equal pixel sizes. -/
theorem spriteFillsAux_eq (ps ux uy : Nat) :
    ∀ (update : List (List Bool)) (yoff : Nat),
      spriteFillsAuxPrev ps ux uy yoff update = spriteFillsAux ps ux uy yoff update := by
  intro update
  induction update with
  | nil => intro yoff; rfl
  | cons row rest ih =>
      intro yoff
      rw [spriteFillsAuxPrev, spriteFillsAux, ih, spriteFillsRow_eq]

/-- C10: for every draw-sprite payload processed with the same pixel_size
value, the current handler (src/main.js, module-global `pixel_size`) and
the preceding rewrite's handler (src/unnamed/part_001, `pixel_size`
recomputed locally as floor(canvas.height / 32)) fill the same rectangles
with the same foreground/background colors in the same order. -/
theorem C10_handlers_equivalent (canvas_height ux uy : Nat) (update : List (List Bool)) :
    drawSpriteFillsPrev canvas_height ux uy update
      = drawSpriteFills (canvas_height / 32) ux uy update := by
  unfold drawSpriteFillsPrev drawSpriteFills
  exact spriteFillsAux_eq (canvas_height / 32) ux uy update 0
